import Mathlib

/-!
Shallow embedding of the coreference-resolution library
(`library/coref_rules.py`, `library/coref_features.py`, `library/neural_net.py`).

Python strings that carry token text are modelled as `List Char`; Python
dictionaries (insertion-ordered, unique keys) are modelled as association
lists together with an insert operation that overwrites in place on an
existing key and appends otherwise.  Fallible dictionary indexing
(`d[k]`, which raises `KeyError`) is modelled with `Option`.  Neural
tensors are opaque: embedding vectors are an arbitrary type, and the
feed-forward scoring net is an arbitrary function into `Int` scores.
-/

/-- A document token, modelled as its character sequence. -/
abbrev Tok := List Char

/-- The `Markable` record of the repository: one mention span.
`string` is the token sequence spanned, `tags` the POS tags, `entity`
the opaque gold cluster identifier. -/
structure Markable where
  start_token : Int
  end_token : Int
  string : List Tok
  tags : List String
  entity : String
deriving DecidableEq

/-- Default markable used for out-of-range list indexing in the model
(Python would raise `IndexError`; all claims keep indices in range). -/
def dM : Markable := ⟨0, 0, [], [], ""⟩

/-- Python dict assignment `d[k] = v`: overwrite in place if the key is
present (keys are unique by construction), else append at the end. -/
def dinsert : List (String × β) → String → β → List (String × β)
  | [], k, v => [(k, v)]
  | p :: rest, k, v => if p.1 = k then (k, v) :: rest else p :: dinsert rest k v

/-- Python dict read `d[k]` as an `Option` (`none` models `KeyError`). -/
def dlookup (d : List (String × β)) (k : String) : Option β :=
  (d.find? (fun p => p.1 == k)).map (fun p => p.2)

/-- Lookup giving the LAST binding of a key (what a sequence of dict
assignments leaves in place when the input list repeats a key). -/
def dlookupLast (d : List (String × β)) (k : String) : Option β :=
  dlookup d.reverse k

/-- Python `d.update(e)`: assign every binding of `e` into `d`, in order. -/
def dupdate (d e : List (String × β)) : List (String × β) :=
  e.foldl (fun acc p => dinsert acc p.1 p.2) d

namespace coref_rules

/-- `downcase_list` of `coref_rules.py`: lowercase every token. -/
def downcase_list (toks : List Tok) : List Tok :=
  toks.map (fun t => t.map Char.toLower)

/-- The fixed closed pronoun list of `coref_rules.py`. -/
def pronouns : List Tok :=
  (["i", "me", "mine", "you", "your", "yours", "she", "her", "hers",
    "he", "him", "his", "it", "its", "they", "them", "their", "theirs",
    "this", "those", "these", "that", "we", "our", "us", "ours"]).map String.data

/-- `exact_match_no_pronouns` of `coref_rules.py`: the downcased token
sequences are equal and the concatenation of the FIRST argument's tokens,
lowercased, is not in the pronoun list. -/
def exact_match_no_pronouns (m_a m_i : Markable) : Bool :=
  (downcase_list m_a.string == downcase_list m_i.string) &&
    !(pronouns.contains ((m_a.string.flatten).map Char.toLower))

/-- `most_recent_match` of `coref_rules.py`: start with `antecedents[i] = i`;
for each mention `i`, scan candidates `a = 0, …, i-1` in order and overwrite
`antecedents[i] = a` whenever the matcher accepts `(markables[a], markables[i])`
(the Python loop `for a, m_a in enumerate(markables[:i])` is the index loop
over `0 ≤ a < i` with `m_a = markables[a]`). -/
def most_recent_match (markables : List Markable)
    (matcher : Markable → Markable → Bool) : List Nat :=
  (List.range markables.length).map (fun i =>
    (List.range i).foldl
      (fun acc a => if matcher (markables.getD a dM) (markables.getD i dM) then a else acc)
      i)

/-- `make_resolver` of `coref_rules.py`. -/
def make_resolver (pairwise_matcher : Markable → Markable → Bool) :
    List Markable → List Nat :=
  fun markables => most_recent_match markables pairwise_matcher

end coref_rules

/-- A feature set: a Python dict from feature names to numeric values. -/
abbrev FeatSet := List (String × Int)

/-- A feature extractor `(markables, a, i) ↦ feature set`. -/
abbrev FeatExtractor := List Markable → Nat → Nat → FeatSet

namespace coref_features

/-- `distance_features` of `coref_features.py`.  For `a = i` the empty
dict; otherwise clip `|i - a|` at `max_mention_distance` and
`|x[i].start_token - x[a].end_token|` at `max_token_distance` and emit the
corresponding indicator features when positive. -/
def distance_features (x : List Markable) (a i : Nat)
    (max_mention_distance max_token_distance : Nat) : FeatSet :=
  if a = i then []
  else
    let mention_dist := min ((i : Int) - (a : Int)).natAbs max_mention_distance
    let token_dist :=
      min ((x.getD i dM).start_token - (x.getD a dM).end_token).natAbs max_token_distance
    let f1 : FeatSet :=
      if 0 < mention_dist then dinsert [] ("mention-distance-" ++ toString mention_dist) 1
      else []
    if 0 < token_dist then dinsert f1 ("token-distance-" ++ toString token_dist) 1
    else f1

/-- `make_feature_union` of `coref_features.py`: start from the empty dict
and `update` with each member extractor's output in list order. -/
def make_feature_union (feat_func_list : List FeatExtractor) : FeatExtractor :=
  fun x a i => feat_func_list.foldl (fun f feat_func => dupdate f (feat_func x a i)) []

end coref_features

namespace neural_net

/-- The positive-feature key list `[k for k, v in feats(markables, a, i).items() if v > 0]`
built inside `SequentialScorer.score_instance`. -/
def get_pos_feats (feats : FeatExtractor) (markables : List Markable) (a i : Nat) :
    List String :=
  ((feats markables a i).filter (fun kv => 0 < kv.2)).map (fun kv => kv.1)

/-- `SequentialScorer.score_instance`: one score per candidate `0 … i`,
where `fwd` is the (opaque) `forward` net applied to the mention embedding,
the candidate embedding and the positive-feature list. -/
def score_instance [Inhabited α] (fwd : α → α → List String → Int)
    (doc_embs : List α) (markables : List Markable) (i : Nat)
    (feats : FeatExtractor) : List Int :=
  (List.range (i + 1)).map (fun ant_index =>
    fwd (doc_embs.getD i default) (doc_embs.getD ant_index default)
      (get_pos_feats feats markables ant_index i))

/-- Modelled from the spec: `library/utils.py` is not among the sources;
spec section 4.6 says the learned resolver selects the `argmax` over the
candidate score vector.  We take the first index attaining the maximum. -/
def argmax (scores : List Int) : Nat :=
  match scores with
  | [] => 0
  | x :: xs =>
    (xs.enum.foldl (fun best p => if best.2 < p.2 then (p.1 + 1, p.2) else best) (0, x)).1

/-- `make_resolver` of `neural_net.py`: a list comprehension over
`range(len(markables))` whose body looks up the document's embeddings in
`emb_dict` under the key `markables[0].entity`; on an empty markable list
the body never evaluates and the result is the empty list. -/
def make_resolver [Inhabited α] (feats : FeatExtractor) (emb_dict : String → List α)
    (fwd : α → α → List String → Int) : List Markable → List Nat :=
  fun markables =>
    match markables with
    | [] => []
    | m0 :: rest =>
      (List.range (m0 :: rest).length).map (fun i =>
        argmax (score_instance fwd (emb_dict m0.entity) (m0 :: rest) i feats))

/-- The `feat_to_idx` dict of `SequentialScorer.__init__`:
`{feat: i for i, feat in enumerate(feat_set)}`. -/
def feat_to_idx (feat_set : List String) : List (String × Nat) :=
  feat_set.enum.foldl (fun d p => dinsert d p.2 p.1) []

/-- The feature-embedding block built inside `SequentialScorer.forward`:
slot `i` defaults to `feat_off_embs(i)`; then for each `(i, feat)` in
`enumerate(pos_feats)` the slot `feat_to_idx[feat]` is overwritten with
`feat_on_embs(i)` — the active embedding looked up at the POSITION of the
feature in `pos_feats`, exactly as the source does.  An absent feature
name makes the dict lookup fail (`KeyError`), modelled as `none`. -/
def forward_feature_emb (feat_set : List String) (feat_off_embs feat_on_embs : Nat → α)
    (pos_feats : List String) : Option (List α) :=
  pos_feats.enum.foldl
    (fun acc p =>
      acc.bind (fun block =>
        (dlookup (feat_to_idx feat_set) p.2).map
          (fun idx => block.set idx (feat_on_embs p.1))))
    (some ((List.range feat_set.length).map feat_off_embs))

/-- Result of `SequentialScorer.instance_top_scores`: the `(None, None)`
sentinel, a pair of top scores, or a runtime error (`torch.max` applied to
an empty selection raises). -/
inductive TopRes where
  | nonePair : TopRes
  | pair (t f : Int) : TopRes
  | err : TopRes
deriving DecidableEq

/-- `SequentialScorer.instance_top_scores`. -/
def instance_top_scores [Inhabited α] (fwd : α → α → List String → Int)
    (doc_embs : List α) (markables : List Markable) (i true_antecedent : Nat)
    (feats : FeatExtractor) : TopRes :=
  if i = 0 ∨ i = true_antecedent then TopRes.nonePair
  else
    let scores := score_instance fwd doc_embs markables i feats
    let all_trues := (List.range i).filter (fun idx =>
      (markables.getD idx dM).entity == (markables.getD true_antecedent dM).entity)
    let all_false := (List.range i).filter (fun idx =>
      !((markables.getD idx dM).entity == (markables.getD true_antecedent dM).entity))
    if all_trues.length = i then TopRes.nonePair
    else
      match (all_trues.map (fun idx => scores.getD idx 0)).max?,
            (all_false.map (fun idx => scores.getD idx 0)).max? with
      | some t, some f => TopRes.pair t f
      | _, _ => TopRes.err

/-- The per-document loss accumulation of `train`: skip `(None, None)`
instances, add `max(0, margin - max_t + max_f)` for scored ones; a runtime
error aborts the document (`none`). -/
def doc_loss (margin : Int) (tops : List TopRes) : Option Int :=
  tops.foldl
    (fun acc r =>
      acc.bind (fun loss =>
        match r with
        | TopRes.nonePair => some loss
        | TopRes.pair t f => some (loss + max 0 (margin - t + f))
        | TopRes.err => none))
    (some 0)

/-- The document loss of `train` expressed through `instance_top_scores`,
with `true_ants` the gold antecedent assignment. -/
def train_doc_loss [Inhabited α] (fwd : α → α → List String → Int)
    (doc_embs : List α) (markables : List Markable) (true_ants : Nat → Nat)
    (feats : FeatExtractor) (margin : Int) : Option Int :=
  doc_loss margin ((List.range markables.length).map (fun i =>
    instance_top_scores fwd doc_embs markables i (true_ants i) feats))

/-- Markables agreeing on every field except possibly `entity`. -/
def sameModuloEntity (m m' : Markable) : Prop :=
  m.start_token = m'.start_token ∧ m.end_token = m'.end_token ∧
    m.string = m'.string ∧ m.tags = m'.tags

end neural_net

/-! ## Helper lemmas -/

/-- The inner scan of `most_recent_match` as a standalone fold. -/
def lastMatch (q : Nat → Bool) (n init : Nat) : Nat :=
  (List.range n).foldl (fun acc a => if q a then a else acc) init

theorem lastMatch_succ (q : Nat → Bool) (n init : Nat) :
    lastMatch q (n + 1) init = if q n then n else lastMatch q n init := by
  unfold lastMatch
  rw [List.range_succ, List.foldl_append]
  simp

theorem lastMatch_spec (q : Nat → Bool) (n init : Nat) :
    (lastMatch q n init = init ∧ ∀ a, a < n → q a = false) ∨
    (lastMatch q n init < n ∧ q (lastMatch q n init) = true ∧
      ∀ a, lastMatch q n init < a → a < n → q a = false) := by
  induction n with
  | zero =>
    left
    exact ⟨rfl, fun a ha => absurd ha (Nat.not_lt_zero a)⟩
  | succ m ih =>
    by_cases hq : q m = true
    · right
      rw [lastMatch_succ, if_pos hq]
      exact ⟨Nat.lt_succ_self m, hq, fun a h1 h2 =>
        absurd (Nat.lt_of_lt_of_le h1 (Nat.le_of_lt_succ h2)) (Nat.lt_irrefl m)⟩
    · have hqf : q m = false := Bool.eq_false_iff.mpr hq
      rw [lastMatch_succ, if_neg hq]
      rcases ih with ⟨h1, h2⟩ | ⟨h1, h2, h3⟩
      · left
        refine ⟨h1, fun a ha => ?_⟩
        rcases Nat.lt_succ_iff_lt_or_eq.mp ha with h | h
        · exact h2 a h
        · exact h ▸ hqf
      · right
        refine ⟨Nat.lt_succ_of_lt h1, h2, fun a ha1 ha2 => ?_⟩
        rcases Nat.lt_succ_iff_lt_or_eq.mp ha2 with h | h
        · exact h3 a ha1 h
        · exact h ▸ hqf

theorem most_recent_match_getD (markables : List Markable)
    (matcher : Markable → Markable → Bool) (i : Nat) (h : i < markables.length) :
    (coref_rules.most_recent_match markables matcher).getD i 0 =
      lastMatch (fun a => matcher (markables.getD a dM) (markables.getD i dM)) i i := by
  unfold coref_rules.most_recent_match lastMatch
  rw [List.getD_eq_getElem?_getD, List.getElem?_map, List.getElem?_range h]
  rfl

/-- C1: `most_recent_match` assigns to each mention `i` the largest candidate
index `a < i` accepted by the pairwise predicate on `(markable[a], markable[i])`,
and `i` itself when no candidate is accepted; in particular a higher-indexed
accepted candidate always supersedes a lower-indexed one. -/
theorem claim_c1_most_recent_match (markables : List Markable)
    (matcher : Markable → Markable → Bool) (i r : Nat)
    (h : i < markables.length)
    (hr : (coref_rules.most_recent_match markables matcher).getD i 0 = r) :
    (r = i ∧ ∀ a, a < i → matcher (markables.getD a dM) (markables.getD i dM) = false) ∨
    (r < i ∧ matcher (markables.getD r dM) (markables.getD i dM) = true ∧
      ∀ a, r < a → a < i → matcher (markables.getD a dM) (markables.getD i dM) = false) := by
  rw [most_recent_match_getD markables matcher i h] at hr
  rw [← hr]
  exact lastMatch_spec (fun a => matcher (markables.getD a dM) (markables.getD i dM)) i i

theorem claim_c1_witness :
    ((1 : Nat) = 2 ∧ ∀ a, a < 2 →
      (fun (_ _ : Markable) => true)
        (([dM, dM, dM] : List Markable).getD a dM) (([dM, dM, dM] : List Markable).getD 2 dM) = false) ∨
    ((1 : Nat) < 2 ∧
      (fun (_ _ : Markable) => true)
        (([dM, dM, dM] : List Markable).getD 1 dM) (([dM, dM, dM] : List Markable).getD 2 dM) = true ∧
      ∀ a, 1 < a → a < 2 →
        (fun (_ _ : Markable) => true)
          (([dM, dM, dM] : List Markable).getD a dM) (([dM, dM, dM] : List Markable).getD 2 dM) = false) :=
  claim_c1_most_recent_match [dM, dM, dM] (fun _ _ => true) 2 1 (by decide) (by decide)

/-- C2: both resolver constructors yield the empty antecedent assignment on a
document with zero markables (no crash): the rule-based `make_resolver` over
any pairwise predicate, and the learned `make_resolver` over any scoring
model, embedding dictionary and feature extractor. -/
theorem claim_c2_empty_document :
    (∀ matcher : Markable → Markable → Bool, coref_rules.make_resolver matcher [] = []) ∧
    (∀ (α : Type) (inst : Inhabited α) (feats : FeatExtractor)
      (emb_dict : String → List α) (fwd : α → α → List String → Int),
      @neural_net.make_resolver α inst feats emb_dict fwd [] = []) :=
  ⟨fun _ => rfl, fun _ _ _ _ _ => rfl⟩

/-- C10: `exact_match_no_pronouns` is symmetric even though only the first
argument's concatenated lowercased string is tested against the pronoun
list, because the predicate also requires equality of the downcased token
sequences, which forces the two concatenated lowercased strings to agree. -/
theorem claim_c10_symm (x y : Markable) :
    coref_rules.exact_match_no_pronouns x y = coref_rules.exact_match_no_pronouns y x := by
  unfold coref_rules.exact_match_no_pronouns
  by_cases h : coref_rules.downcase_list x.string = coref_rules.downcase_list y.string
  · have hx : (x.string.flatten).map Char.toLower = (coref_rules.downcase_list x.string).flatten :=
      List.map_flatten Char.toLower x.string
    have hy : (y.string.flatten).map Char.toLower = (coref_rules.downcase_list y.string).flatten :=
      List.map_flatten Char.toLower y.string
    have hjoin : (x.string.flatten).map Char.toLower = (y.string.flatten).map Char.toLower := by
      rw [hx, hy, h]
    rw [h, hjoin]
  · have h1 : (coref_rules.downcase_list x.string == coref_rules.downcase_list y.string) = false := by
      simp [h]
    have h2 : (coref_rules.downcase_list y.string == coref_rules.downcase_list x.string) = false := by
      simp
      intro hh
      exact h hh.symm
    rw [h1, h2]
    simp

theorem mention_token_name_ne (s t : String) :
    ("mention-distance-" ++ s) ≠ ("token-distance-" ++ t) := by
  intro h
  have hd : ("mention-distance-" ++ s).data = ("token-distance-" ++ t).data :=
    congrArg String.data h
  rw [String.data_append, String.data_append] at hd
  have h1 : "mention-distance-".data = 'm' :: "ention-distance-".data := rfl
  have h2 : "token-distance-".data = 't' :: "oken-distance-".data := rfl
  rw [h1, h2, List.cons_append, List.cons_append] at hd
  injection hd with hc _
  exact absurd hc (by decide)

theorem dinsert_single_ne (k k' : String) (v v' : Int) (h : k ≠ k') :
    dinsert [(k, v)] k' v' = [(k, v), (k', v')] := by
  simp [dinsert, h]

/-- C7: `distance_features` yields the empty feature set at `a = i`, and
otherwise exactly the clipped mention-distance indicator (when positive) and
the clipped token-distance indicator (when positive), nothing else; with
`max_mention_distance = 5`, mention distances 5, 6 and 100 all yield exactly
`mention-distance-5`. -/
theorem claim_c7_distance_features :
    (∀ (x : List Markable) (a i mmd mtd : Nat),
      coref_features.distance_features x a i mmd mtd =
        if a = i then []
        else
          (if 0 < min ((i : Int) - (a : Int)).natAbs mmd then
            [("mention-distance-" ++ toString (min ((i : Int) - (a : Int)).natAbs mmd), (1 : Int))]
          else []) ++
          (if 0 < min ((x.getD i dM).start_token - (x.getD a dM).end_token).natAbs mtd then
            [("token-distance-" ++
               toString (min ((x.getD i dM).start_token - (x.getD a dM).end_token).natAbs mtd), (1 : Int))]
          else [])) ∧
    coref_features.distance_features (List.replicate 101 dM) 0 5 5 10 = [("mention-distance-5", 1)] ∧
    coref_features.distance_features (List.replicate 101 dM) 0 6 5 10 = [("mention-distance-5", 1)] ∧
    coref_features.distance_features (List.replicate 101 dM) 0 100 5 10 = [("mention-distance-5", 1)] := by
  refine ⟨?_, by decide, by decide, by decide⟩
  intro x a i mmd mtd
  by_cases hai : a = i
  · simp [coref_features.distance_features, hai]
  · have hne := mention_token_name_ne
      (toString (min ((i : Int) - (a : Int)).natAbs mmd))
      (toString (min ((x.getD i dM).start_token - (x.getD a dM).end_token).natAbs mtd))
    simp only [coref_features.distance_features, if_neg hai]
    by_cases hm : 0 < min ((i : Int) - (a : Int)).natAbs mmd
    · by_cases ht : 0 < min ((x.getD i dM).start_token - (x.getD a dM).end_token).natAbs mtd
      · simp only [if_pos hm, if_pos ht]
        rw [show dinsert ([] : FeatSet)
            ("mention-distance-" ++ toString (min ((i : Int) - (a : Int)).natAbs mmd)) 1 =
            [("mention-distance-" ++ toString (min ((i : Int) - (a : Int)).natAbs mmd), 1)] from rfl]
        rw [dinsert_single_ne _ _ _ _ hne]
        rfl
      · simp only [if_pos hm, if_neg ht]
        rfl
    · by_cases ht : 0 < min ((x.getD i dM).start_token - (x.getD a dM).end_token).natAbs mtd
      · simp only [if_neg hm, if_pos ht]
        rfl
      · simp only [if_neg hm, if_neg ht]
        rfl

theorem dlookup_dinsert (d : List (String × β)) (k k' : String) (v : β) :
    dlookup (dinsert d k v) k' = if k' = k then some v else dlookup d k' := by
  induction d with
  | nil =>
    by_cases h : k' = k
    · simp [dinsert, dlookup, List.find?, h]
    · simp only [dinsert, dlookup, List.find?]
      have hb : (k == k') = false := by
        simp
        intro hh
        exact h hh.symm
      rw [hb]
      simp [if_neg h]
  | cons p rest ih =>
    by_cases hp : p.1 = k
    · by_cases h : k' = k
      · simp [dinsert, dlookup, List.find?, hp, h]
      · have hb : (k == k') = false := by
          simp
          intro hh
          exact h hh.symm
        have hb2 : (p.1 == k') = false := by
          simp
          intro hh
          exact h (hh.symm.trans hp)
        simp only [dinsert, if_pos hp, dlookup, List.find?, hb, hb2]
        rw [if_neg h]
    · simp only [dinsert, if_neg hp]
      by_cases hk : p.1 == k'
      · have : k' ≠ k := by
          intro hh
          exact hp (by rw [(beq_iff_eq.mp hk), hh])
        simp only [dlookup, List.find?, hk]
        rw [if_neg this]
      · have hkf : (p.1 == k') = false := Bool.eq_false_iff.mpr hk
        simp only [dlookup, List.find?, hkf]
        have := ih
        simp only [dlookup] at this
        rw [this]

theorem dlookup_append (l1 l2 : List (String × β)) (k : String) :
    dlookup (l1 ++ l2) k = (dlookup l1 k).or (dlookup l2 k) := by
  simp only [dlookup, List.find?_append]
  cases List.find? (fun p => p.1 == k) l1 with
  | none => simp [Option.none_or]
  | some v => simp [Option.or]

theorem dlookupLast_cons (p : String × β) (e : List (String × β)) (k : String) :
    dlookupLast (p :: e) k = (dlookupLast e k).or (dlookup [p] k) := by
  simp only [dlookupLast, List.reverse_cons, dlookup_append]

theorem dlookup_dupdate (d e : List (String × β)) (k : String) :
    dlookup (dupdate d e) k = (dlookupLast e k).or (dlookup d k) := by
  induction e generalizing d with
  | nil => simp [dupdate, dlookupLast, dlookup, List.find?, Option.none_or]
  | cons p rest ih =>
    have hstep : dupdate d (p :: rest) = dupdate (dinsert d p.1 p.2) rest := rfl
    rw [hstep, ih, dlookupLast_cons, dlookup_dinsert, Option.or_assoc]
    by_cases h : k = p.1
    · have hb : (p.1 == k) = true := by
        simp [h.symm]
      simp only [dlookup, List.find?, hb, if_pos h]
      rfl
    · have hb : (p.1 == k) = false := by
        simp
        intro hh
        exact h hh.symm
      simp only [dlookup, List.find?, hb, if_neg h]
      rfl

theorem feature_union_fold (x : List Markable) (a i : Nat) (k : String) :
    ∀ (fl : List FeatExtractor) (d0 : FeatSet),
      dlookup (fl.foldl (fun f feat_func => dupdate f (feat_func x a i)) d0) k =
        ((fl.map (fun g => g x a i)).reverse.findSome?
          (fun d => dlookupLast d k)).or (dlookup d0 k) := by
  intro fl
  induction fl with
  | nil =>
    intro d0
    simp [Option.none_or]
  | cons g gs ih =>
    intro d0
    rw [List.foldl_cons, ih, List.map_cons, List.reverse_cons, List.findSome?_append,
      dlookup_dupdate, ← Option.or_assoc]
    have : List.findSome? (fun d => dlookupLast d k) [g x a i] = dlookupLast (g x a i) k := by
      simp [List.findSome?]
      cases dlookupLast (g x a i) k with
      | none => rfl
      | some v => rfl
    rw [this]

/-- C8: the extractor returned by `make_feature_union` computes the key-wise
union of the member extractors' outputs on the same inputs, where on a key
collision the value from the extractor occurring later in the list wins:
the lookup of any key in the union equals the first hit when scanning the
member outputs from the last extractor backwards. -/
theorem claim_c8_feature_union (fl : List FeatExtractor) (x : List Markable)
    (a i : Nat) (k : String) :
    dlookup (coref_features.make_feature_union fl x a i) k =
      (fl.map (fun g => g x a i)).reverse.findSome? (fun d => dlookupLast d k) := by
  unfold coref_features.make_feature_union
  rw [feature_union_fold x a i k fl []]
  simp [dlookup, List.find?, Option.or_none]

/-- C3 counterexample: the learned resolver reads `markables[0].entity` as the
key selecting the document's embeddings from `emb_dict`, so two markable
lists that differ only in their `entity` values can resolve differently. -/
theorem claim_c3_counterexample :
    List.Forall₂ neural_net.sameModuloEntity
      [⟨0, 0, [], [], "A"⟩, ⟨1, 1, [], [], "A"⟩]
      [⟨0, 0, [], [], "B"⟩, ⟨1, 1, [], [], "B"⟩] ∧
    neural_net.make_resolver (fun _ _ _ => ([] : FeatSet))
      (fun e => if e = "A" then ([0, 0] : List Int) else [0, 1]) (fun u v _ => u + v)
      [⟨0, 0, [], [], "A"⟩, ⟨1, 1, [], [], "A"⟩] = [0, 0] ∧
    neural_net.make_resolver (fun _ _ _ => ([] : FeatSet))
      (fun e => if e = "A" then ([0, 0] : List Int) else [0, 1]) (fun u v _ => u + v)
      [⟨0, 0, [], [], "B"⟩, ⟨1, 1, [], [], "B"⟩] = [0, 1] := by
  refine ⟨?_, by decide, by decide⟩
  exact List.Forall₂.cons ⟨rfl, rfl, rfl, rfl⟩
    (List.Forall₂.cons ⟨rfl, rfl, rfl, rfl⟩ List.Forall₂.nil)

/-- C3 (amended): the learned resolver's inference output is independent of
the gold `entity` fields PROVIDED the first markable's `entity` (used only as
the embedding-dictionary key) is unchanged and the feature extractor is
entity-blind: two markable lists agreeing on everything except `entity`,
with equal first-markable `entity`, produce identical assignments. -/
theorem claim_c3_amended {α : Type} [Inhabited α] (fwd : α → α → List String → Int)
    (emb_dict : String → List α) (feats : FeatExtractor) (mksA mksB : List Markable)
    (hsame : List.Forall₂ neural_net.sameModuloEntity mksA mksB)
    (hfeats : ∀ u v a i, List.Forall₂ neural_net.sameModuloEntity u v → feats u a i = feats v a i)
    (hhead : (mksA.headD dM).entity = (mksB.headD dM).entity) :
    neural_net.make_resolver feats emb_dict fwd mksA =
      neural_net.make_resolver feats emb_dict fwd mksB := by
  cases hsame with
  | nil => rfl
  | @cons a0 b0 as bs h hs =>
    have hall : List.Forall₂ neural_net.sameModuloEntity (a0 :: as) (b0 :: bs) :=
      List.Forall₂.cons h hs
    have hlen : (a0 :: as).length = (b0 :: bs).length := hall.length_eq
    have hent : a0.entity = b0.entity := hhead
    show (List.range (a0 :: as).length).map (fun i =>
        neural_net.argmax (neural_net.score_instance fwd (emb_dict a0.entity) (a0 :: as) i feats)) =
      (List.range (b0 :: bs).length).map (fun i =>
        neural_net.argmax (neural_net.score_instance fwd (emb_dict b0.entity) (b0 :: bs) i feats))
    rw [← hlen, ← hent]
    apply List.map_congr_left
    intro i _
    unfold neural_net.score_instance
    apply congrArg neural_net.argmax
    apply List.map_congr_left
    intro ant _
    unfold neural_net.get_pos_feats
    rw [hfeats (a0 :: as) (b0 :: bs) ant i hall]

theorem claim_c3_witness :
    neural_net.make_resolver (fun _ _ _ => ([] : FeatSet)) (fun _ => ([0, 0] : List Int))
      (fun u v _ => u + v) [⟨0, 0, [], [], "A"⟩, ⟨1, 1, [], [], "A"⟩] =
    neural_net.make_resolver (fun _ _ _ => ([] : FeatSet)) (fun _ => ([0, 0] : List Int))
      (fun u v _ => u + v) [⟨0, 0, [], [], "A"⟩, ⟨1, 1, [], [], "B"⟩] :=
  claim_c3_amended (fun u v _ => u + v) (fun _ => ([0, 0] : List Int))
    (fun _ _ _ => ([] : FeatSet))
    [⟨0, 0, [], [], "A"⟩, ⟨1, 1, [], [], "A"⟩]
    [⟨0, 0, [], [], "A"⟩, ⟨1, 1, [], [], "B"⟩]
    (List.Forall₂.cons ⟨rfl, rfl, rfl, rfl⟩
      (List.Forall₂.cons ⟨rfl, rfl, rfl, rfl⟩ List.Forall₂.nil))
    (fun _ _ _ _ _ => rfl) rfl

/-- C4: evaluation of the feature-embedding block at the failing input.
With vocabulary `["f0", "f1"]` and positive feature list `["f1"]`, the slot
at `f1`'s vocabulary index 1 is overwritten with `feat_on_embs(0)` — the
active embedding looked up at the POSITION of `f1` in the positive list —
rather than `feat_on_embs(1)`, the active embedding of `f1` itself, which
the claim (and the spec) require. -/
theorem claim_c4_eval :
    neural_net.forward_feature_emb ["f0", "f1"] (fun n => (n : Int))
      (fun n => (100 + n : Int)) ["f1"] = some [0, 100] := by
  decide

/-- C6 counterexample: constructing the scorer's feature table over the
vocabulary `["a"]` succeeds without any validation, and the failure for the
unknown feature name `"b"` surfaces only when `forward` builds the
feature-embedding block (a `KeyError`, modelled as `none`) — at scoring
time, not at model-construction time as the claim states. -/
theorem claim_c6_counterexample :
    neural_net.feat_to_idx ["a"] = [("a", 0)] ∧
    dlookup (neural_net.feat_to_idx ["a"]) "b" = none ∧
    neural_net.forward_feature_emb ["a"] (fun n => (n : Int)) (fun n => (n : Int)) ["b"] = none := by
  exact ⟨by decide, by decide, by decide⟩

theorem forward_feature_fold_none {α : Type} (step : Option (List α) → Nat × String → Option (List α))
    (hstep : ∀ p, step none p = none) :
    ∀ l : List (Nat × String), l.foldl step none = none := by
  intro l
  induction l with
  | nil => rfl
  | cons p rest ih => rw [List.foldl_cons, hstep p]; exact ih

theorem forward_feature_emb_aux {α : Type} (feat_set : List String)
    (feat_on_embs : Nat → α) (feat : String)
    (hmiss : dlookup (neural_net.feat_to_idx feat_set) feat = none) :
    ∀ (pos : List String) (n : Nat) (acc : Option (List α)), feat ∈ pos →
      (List.enumFrom n pos).foldl
        (fun acc p =>
          acc.bind (fun block =>
            (dlookup (neural_net.feat_to_idx feat_set) p.2).map
              (fun idx => block.set idx (feat_on_embs p.1)))) acc = none := by
  intro pos
  induction pos with
  | nil => intro n acc h; cases h
  | cons q rest ih =>
    intro n acc h
    rw [List.enumFrom_cons, List.foldl_cons]
    rcases List.mem_cons.mp h with hq | hrest
    · have hnone :
          (acc.bind (fun block =>
            (dlookup (neural_net.feat_to_idx feat_set) q).map
              (fun idx => block.set idx (feat_on_embs n)))) = none := by
        cases acc with
        | none => rfl
        | some block => simp [hq ▸ hmiss]
      rw [hnone]
      exact forward_feature_fold_none _ (fun p => rfl) _
    · exact ih (n + 1) _ hrest

/-- C6 (amended): an unknown feature name is NOT silently ignored, but the
failure surfaces at scoring time, not at model construction: building the
feature-embedding block in `forward` fails (`KeyError`, modelled `none`)
whenever the positive-feature list contains a name outside the scorer's
fixed feature vocabulary, while `__init__` performs no validation. -/
theorem claim_c6_amended {α : Type} (feat_set : List String)
    (feat_off_embs feat_on_embs : Nat → α) (pos_feats : List String) (feat : String)
    (hmem : feat ∈ pos_feats)
    (hmiss : dlookup (neural_net.feat_to_idx feat_set) feat = none) :
    neural_net.forward_feature_emb feat_set feat_off_embs feat_on_embs pos_feats = none := by
  unfold neural_net.forward_feature_emb
  exact forward_feature_emb_aux feat_set feat_on_embs feat hmiss pos_feats 0 _ hmem

theorem claim_c6_witness :
    ("y" ∈ ["x", "y"]) ∧
    dlookup (neural_net.feat_to_idx ["w"]) "y" = none ∧
    neural_net.forward_feature_emb ["w"] (fun n => (2 * n : Int)) (fun n => (3 * n : Int))
      ["x", "y"] = none :=
  ⟨by decide, by decide,
    claim_c6_amended ["w"] (fun n => (2 * n : Int)) (fun n => (3 * n : Int))
      ["x", "y"] "y" (by decide) (by decide)⟩

theorem instance_top_scores_unfold {α : Type} [Inhabited α]
    (fwd : α → α → List String → Int) (doc_embs : List α)
    (markables : List Markable) (i ta : Nat) (feats : FeatExtractor) :
    neural_net.instance_top_scores fwd doc_embs markables i ta feats =
      if i = 0 ∨ i = ta then neural_net.TopRes.nonePair
      else if ((List.range i).filter (fun idx =>
          (markables.getD idx dM).entity == (markables.getD ta dM).entity)).length = i then
        neural_net.TopRes.nonePair
      else
        match (((List.range i).filter (fun idx =>
              (markables.getD idx dM).entity == (markables.getD ta dM).entity)).map
              (fun idx => (neural_net.score_instance fwd doc_embs markables i feats).getD idx 0)).max?,
            (((List.range i).filter (fun idx =>
              !((markables.getD idx dM).entity == (markables.getD ta dM).entity))).map
              (fun idx => (neural_net.score_instance fwd doc_embs markables i feats).getD idx 0)).max? with
        | some t, some f => neural_net.TopRes.pair t f
        | _, _ => neural_net.TopRes.err := rfl

/-- C5: under a valid gold antecedent (`true_antecedent ≤ i`),
`instance_top_scores` returns the `(None, None)` sentinel exactly when
`i = 0`, or `i = true_antecedent`, or every candidate `0 … i-1` carries the
same gold entity as `markables[true_antecedent]`; otherwise it returns the
maximum score among same-entity candidates paired with the maximum score
among different-entity candidates, and never hits the runtime-error case. -/
theorem claim_c5_instance_top_scores {α : Type} [Inhabited α]
    (fwd : α → α → List String → Int) (doc_embs : List α)
    (markables : List Markable) (i ta : Nat) (feats : FeatExtractor)
    (hta : ta ≤ i) :
    (neural_net.instance_top_scores fwd doc_embs markables i ta feats =
        neural_net.TopRes.nonePair ↔
      (i = 0 ∨ i = ta ∨ ∀ a, a < i →
        (markables.getD a dM).entity = (markables.getD ta dM).entity)) ∧
    (∀ t f, neural_net.instance_top_scores fwd doc_embs markables i ta feats =
        neural_net.TopRes.pair t f →
      (((List.range i).filter (fun idx =>
          (markables.getD idx dM).entity == (markables.getD ta dM).entity)).map
        (fun idx => (neural_net.score_instance fwd doc_embs markables i feats).getD idx 0)).max?
          = some t ∧
      (((List.range i).filter (fun idx =>
          !((markables.getD idx dM).entity == (markables.getD ta dM).entity))).map
        (fun idx => (neural_net.score_instance fwd doc_embs markables i feats).getD idx 0)).max?
          = some f) ∧
    neural_net.instance_top_scores fwd doc_embs markables i ta feats ≠
      neural_net.TopRes.err := by
  by_cases h0 : i = 0 ∨ i = ta
  · have heq : neural_net.instance_top_scores fwd doc_embs markables i ta feats =
        neural_net.TopRes.nonePair := by
      rw [instance_top_scores_unfold, if_pos h0]
    refine ⟨?_, ?_, ?_⟩
    · rw [heq]
      constructor
      · intro _
        rcases h0 with h | h
        · exact Or.inl h
        · exact Or.inr (Or.inl h)
      · intro _
        rfl
    · intro t f hpair
      rw [heq] at hpair
      exact neural_net.TopRes.noConfusion hpair
    · rw [heq]
      exact fun hh => neural_net.TopRes.noConfusion hh
  · have hlt : ta < i := Nat.lt_of_le_of_ne hta (fun hh => h0 (Or.inr hh.symm))
    by_cases hall : ((List.range i).filter (fun idx =>
        (markables.getD idx dM).entity == (markables.getD ta dM).entity)).length = i
    · have heq : neural_net.instance_top_scores fwd doc_embs markables i ta feats =
          neural_net.TopRes.nonePair := by
        rw [instance_top_scores_unfold, if_neg h0, if_pos hall]
      have hallmem : ∀ a ∈ List.range i,
          ((markables.getD a dM).entity == (markables.getD ta dM).entity) = true :=
        List.filter_length_eq_length.mp (hall.trans (List.length_range i).symm)
      refine ⟨?_, ?_, ?_⟩
      · rw [heq]
        constructor
        · intro _
          exact Or.inr (Or.inr (fun a ha =>
            beq_iff_eq.mp (hallmem a (List.mem_range.mpr ha))))
        · intro _
          rfl
      · intro t f hpair
        rw [heq] at hpair
        exact neural_net.TopRes.noConfusion hpair
      · rw [heq]
        exact fun hh => neural_net.TopRes.noConfusion hh
    · have htne : ((List.range i).filter (fun idx =>
          (markables.getD idx dM).entity == (markables.getD ta dM).entity)) ≠ [] := by
        intro hnil
        have hmem : ta ∈ (List.range i).filter (fun idx =>
            (markables.getD idx dM).entity == (markables.getD ta dM).entity) :=
          List.mem_filter.mpr ⟨List.mem_range.mpr hlt, beq_self_eq_true _⟩
        rw [hnil] at hmem
        cases hmem
      have hsum : i =
          ((List.range i).filter (fun idx =>
            (markables.getD idx dM).entity == (markables.getD ta dM).entity)).length +
          ((List.range i).filter (fun idx =>
            !((markables.getD idx dM).entity == (markables.getD ta dM).entity))).length := by
        have := @List.length_eq_length_filter_add Nat (List.range i)
          (fun idx => (markables.getD idx dM).entity == (markables.getD ta dM).entity)
        rwa [List.length_range] at this
      have hfne : ((List.range i).filter (fun idx =>
          !((markables.getD idx dM).entity == (markables.getD ta dM).entity))) ≠ [] := by
        intro hnil
        rw [hnil] at hsum
        simp only [List.length_nil, Nat.add_zero] at hsum
        exact hall hsum.symm
      obtain ⟨t0, ht0⟩ : ∃ t0, (((List.range i).filter (fun idx =>
          (markables.getD idx dM).entity == (markables.getD ta dM).entity)).map
          (fun idx => (neural_net.score_instance fwd doc_embs markables i feats).getD idx 0)).max?
            = some t0 := by
        cases hmx : (((List.range i).filter (fun idx =>
            (markables.getD idx dM).entity == (markables.getD ta dM).entity)).map
            (fun idx => (neural_net.score_instance fwd doc_embs markables i feats).getD idx 0)).max? with
        | some v => exact ⟨v, rfl⟩
        | none =>
          exact absurd (List.map_eq_nil_iff.mp (List.max?_eq_none_iff.mp hmx)) htne
      obtain ⟨f0, hf0⟩ : ∃ f0, (((List.range i).filter (fun idx =>
          !((markables.getD idx dM).entity == (markables.getD ta dM).entity))).map
          (fun idx => (neural_net.score_instance fwd doc_embs markables i feats).getD idx 0)).max?
            = some f0 := by
        cases hmx : (((List.range i).filter (fun idx =>
            !((markables.getD idx dM).entity == (markables.getD ta dM).entity))).map
            (fun idx => (neural_net.score_instance fwd doc_embs markables i feats).getD idx 0)).max? with
        | some v => exact ⟨v, rfl⟩
        | none =>
          exact absurd (List.map_eq_nil_iff.mp (List.max?_eq_none_iff.mp hmx)) hfne
      have heq : neural_net.instance_top_scores fwd doc_embs markables i ta feats =
          neural_net.TopRes.pair t0 f0 := by
        rw [instance_top_scores_unfold, if_neg h0, if_neg hall, ht0, hf0]
      refine ⟨?_, ?_, ?_⟩
      · rw [heq]
        constructor
        · intro hc
          exact neural_net.TopRes.noConfusion hc
        · intro hc
          rcases hc with h | h | h
          · exact absurd (Or.inl h) h0
          · exact absurd (Or.inr h) h0
          · exact absurd ((List.filter_length_eq_length.mpr (fun a ha =>
              beq_iff_eq.mpr (h a (List.mem_range.mp ha)))).trans (List.length_range i)) hall
      · intro t f hpair
        rw [heq] at hpair
        injection hpair with h1 h2
        exact ⟨h1 ▸ ht0, h2 ▸ hf0⟩
      · rw [heq]
        exact fun hh => neural_net.TopRes.noConfusion hh

theorem claim_c5_witness :
    (0 : Nat) ≤ 2 ∧
    ((neural_net.instance_top_scores (fun (u v : Int) _ => u + v) [1, 2, 3]
        [⟨0, 0, [], [], "A"⟩, ⟨1, 1, [], [], "B"⟩, ⟨2, 2, [], [], "A"⟩] 2 0
        (fun _ _ _ => []) = neural_net.TopRes.nonePair ↔
      ((2 : Nat) = 0 ∨ (2 : Nat) = 0 ∨ ∀ a, a < 2 →
        (([⟨0, 0, [], [], "A"⟩, ⟨1, 1, [], [], "B"⟩, ⟨2, 2, [], [], "A"⟩] : List Markable).getD a dM).entity =
        (([⟨0, 0, [], [], "A"⟩, ⟨1, 1, [], [], "B"⟩, ⟨2, 2, [], [], "A"⟩] : List Markable).getD 0 dM).entity)) ∧
    (∀ t f, neural_net.instance_top_scores (fun (u v : Int) _ => u + v) [1, 2, 3]
        [⟨0, 0, [], [], "A"⟩, ⟨1, 1, [], [], "B"⟩, ⟨2, 2, [], [], "A"⟩] 2 0
        (fun _ _ _ => []) = neural_net.TopRes.pair t f →
      (((List.range 2).filter (fun idx =>
          (([⟨0, 0, [], [], "A"⟩, ⟨1, 1, [], [], "B"⟩, ⟨2, 2, [], [], "A"⟩] : List Markable).getD idx dM).entity ==
          (([⟨0, 0, [], [], "A"⟩, ⟨1, 1, [], [], "B"⟩, ⟨2, 2, [], [], "A"⟩] : List Markable).getD 0 dM).entity)).map
        (fun idx => (neural_net.score_instance (fun (u v : Int) _ => u + v) [1, 2, 3]
          [⟨0, 0, [], [], "A"⟩, ⟨1, 1, [], [], "B"⟩, ⟨2, 2, [], [], "A"⟩] 2 (fun _ _ _ => [])).getD idx 0)).max?
            = some t ∧
      (((List.range 2).filter (fun idx =>
          !((([⟨0, 0, [], [], "A"⟩, ⟨1, 1, [], [], "B"⟩, ⟨2, 2, [], [], "A"⟩] : List Markable).getD idx dM).entity ==
            (([⟨0, 0, [], [], "A"⟩, ⟨1, 1, [], [], "B"⟩, ⟨2, 2, [], [], "A"⟩] : List Markable).getD 0 dM).entity))).map
        (fun idx => (neural_net.score_instance (fun (u v : Int) _ => u + v) [1, 2, 3]
          [⟨0, 0, [], [], "A"⟩, ⟨1, 1, [], [], "B"⟩, ⟨2, 2, [], [], "A"⟩] 2 (fun _ _ _ => [])).getD idx 0)).max?
            = some f) ∧
    neural_net.instance_top_scores (fun (u v : Int) _ => u + v) [1, 2, 3]
      [⟨0, 0, [], [], "A"⟩, ⟨1, 1, [], [], "B"⟩, ⟨2, 2, [], [], "A"⟩] 2 0
      (fun _ _ _ => []) ≠ neural_net.TopRes.err) :=
  ⟨by decide,
    claim_c5_instance_top_scores (fun (u v : Int) _ => u + v) [1, 2, 3]
      [⟨0, 0, [], [], "A"⟩, ⟨1, 1, [], [], "B"⟩, ⟨2, 2, [], [], "A"⟩] 2 0
      (fun _ _ _ => []) (by decide)⟩

theorem doc_loss_fold_none (margin : Int) :
    ∀ tops : List neural_net.TopRes,
      tops.foldl
        (fun acc r =>
          acc.bind (fun loss =>
            match r with
            | neural_net.TopRes.nonePair => some loss
            | neural_net.TopRes.pair t f => some (loss + max 0 (margin - t + f))
            | neural_net.TopRes.err => none)) none = none := by
  intro tops
  induction tops with
  | nil => rfl
  | cons r rest ih => exact ih

theorem doc_loss_fold_nonneg (margin : Int) :
    ∀ (tops : List neural_net.TopRes) (L0 : Int), 0 ≤ L0 →
      ∀ L : Int,
        tops.foldl
          (fun acc r =>
            acc.bind (fun loss =>
              match r with
              | neural_net.TopRes.nonePair => some loss
              | neural_net.TopRes.pair t f => some (loss + max 0 (margin - t + f))
              | neural_net.TopRes.err => none)) (some L0) = some L →
        0 ≤ L := by
  intro tops
  induction tops with
  | nil =>
    intro L0 h0 L hL
    injection hL with he
    exact he ▸ h0
  | cons r rest ih =>
    intro L0 h0 L hL
    rw [List.foldl_cons] at hL
    cases r with
    | nonePair => exact ih L0 h0 L hL
    | pair t f =>
      exact ih (L0 + max 0 (margin - t + f)) (add_nonneg h0 (le_max_left 0 _)) L hL
    | err =>
      exact absurd ((doc_loss_fold_none margin rest).symm.trans hL) (by simp)

/-- C9: the loss the training loop accumulates for a document is non-negative:
each eligible mention contributes `max(0, margin - best_true + best_false)`,
which is clamped at zero, so whenever the document loss is defined it is
non-negative. -/
theorem claim_c9_nonneg_loss {α : Type} [Inhabited α]
    (fwd : α → α → List String → Int) (doc_embs : List α)
    (markables : List Markable) (true_ants : Nat → Nat) (feats : FeatExtractor)
    (margin L : Int)
    (h : neural_net.train_doc_loss fwd doc_embs markables true_ants feats margin = some L) :
    0 ≤ L := by
  unfold neural_net.train_doc_loss neural_net.doc_loss at h
  exact doc_loss_fold_nonneg margin _ 0 le_rfl L h

theorem claim_c9_witness :
    neural_net.train_doc_loss (fun (u v : Int) _ => u + v) [1, 2, 3]
      [⟨0, 0, [], [], "A"⟩, ⟨1, 1, [], [], "B"⟩, ⟨2, 2, [], [], "A"⟩]
      (fun _ => 0) (fun _ _ _ => []) 1 = some 2 ∧ (0 : Int) ≤ 2 :=
  ⟨by decide,
    claim_c9_nonneg_loss (fun (u v : Int) _ => u + v) [1, 2, 3]
      [⟨0, 0, [], [], "A"⟩, ⟨1, 1, [], [], "B"⟩, ⟨2, 2, [], [], "A"⟩]
      (fun _ => 0) (fun _ _ _ => []) 1 2 (by decide)⟩
